import Mathlib

/-!
Verification of the markdown-to-block parser of `src/client/app/page.tsx`
(the `parseMarkdown` function and its helpers).  The parser is embedded
shallowly: JS strings become `List Char`, the regex line tests become
explicit predicates mirroring the source patterns, and the `while` loop
over the line cursor becomes a fuel-indexed recursion where the fuel is
the number of lines (each iteration consumes at least one line, which is
proved below).
-/

namespace GistApp

/-! ## Character classes (JS `\s`, string line terminators, `trim`) -/

/-- JS `\s` / `String.prototype.trim` whitespace set (ECMA-262 WhiteSpace
plus LineTerminator). -/
def jsSpace (c : Char) : Bool :=
  let n := c.toNat
  n == 32 || n == 9 || n == 10 || n == 11 || n == 12 || n == 13 ||
  n == 0xa0 || n == 0x1680 || (0x2000 ≤ n && n ≤ 0x200a) ||
  n == 0x2028 || n == 0x2029 || n == 0x202f || n == 0x205f ||
  n == 0x3000 || n == 0xfeff

/-- JS regex line terminators: characters the regex `.` does not match. -/
def isLineTerm (c : Char) : Bool :=
  let n := c.toNat
  n == 10 || n == 13 || n == 0x2028 || n == 0x2029

/-- JS `String.prototype.trim` on a character list. -/
def jsTrim (l : List Char) : List Char :=
  ((l.dropWhile jsSpace).reverse.dropWhile jsSpace).reverse

/-- JS `String.prototype.split(sep)` for a single-character separator:
always returns at least one (possibly empty) piece. -/
def splitOnChar (sep : Char) : List Char → List (List Char)
  | [] => [[]]
  | c :: cs =>
    if c = sep then [] :: splitOnChar sep cs
    else
      match splitOnChar sep cs with
      | h :: t => (c :: h) :: t
      | [] => [[c]]

/-! ## JS `String.prototype.replace(/literal/g, rep)` -/

/-- One global literal-substring replacement pass, with fuel (one unit of
fuel per scanned position; the fuel `s.length` supplied by `replaceAll`
is always enough since every step consumes at least one character). -/
def replaceAllFuel (pat rep : List Char) : Nat → List Char → List Char
  | 0, s => s
  | _, [] => []
  | fuel + 1, c :: cs =>
    if pat ≠ [] ∧ pat.isPrefixOf (c :: cs) then
      rep ++ replaceAllFuel pat rep fuel ((c :: cs).drop pat.length)
    else
      c :: replaceAllFuel pat rep fuel cs

/-- JS `s.replace(/pat/g, rep)` for a metacharacter-free pattern. -/
def replaceAll (pat rep s : List Char) : List Char :=
  replaceAllFuel pat rep s.length s

/-! ## Text normalizer (`decodeHtmlEntities` + the mojibake table) -/

/-- One named/numeric entity at the position right after a `&`. -/
def namedEntity (cs : List Char) : Option (Char × List Char) :=
  if ("amp;".data).isPrefixOf cs then some ('&', cs.drop 4)
  else if ("lt;".data).isPrefixOf cs then some ('<', cs.drop 3)
  else if ("gt;".data).isPrefixOf cs then some ('>', cs.drop 3)
  else if ("quot;".data).isPrefixOf cs then some ('"', cs.drop 5)
  else if ("#39;".data).isPrefixOf cs then some (Char.ofNat 39, cs.drop 4)
  else if ("nbsp;".data).isPrefixOf cs then some (' ', cs.drop 5)
  else none

/-- Single left-to-right entity-decoding pass, with fuel (`s.length`
suffices: every step consumes at least one character). -/
def decodeFuel : Nat → List Char → List Char
  | 0, s => s
  | _, [] => []
  | fuel + 1, c :: cs =>
    if c = '&' then
      match namedEntity cs with
      | some (d, rest) => d :: decodeFuel fuel rest
      | none => c :: decodeFuel fuel cs
    else c :: decodeFuel fuel cs

/-- Modelled from the spec: the source `decodeHtmlEntities` (page.tsx
lines 241-245) delegates to the browser DOM (`textarea.innerHTML`), which
performs a single pass of standard HTML entity decoding; the browser is
not part of this repository, so the decoder is modelled here for a
representative set of entities (`&amp;` `&lt;` `&gt;` `&quot;` `&#39;`
`&nbsp;`), decoded in one left-to-right pass exactly as a textarea
round-trip does. -/
def decodeHtmlEntities (s : List Char) : List Char :=
  decodeFuel s.length s

/-- The ordered mojibake correction table of page.tsx lines 252-262, as
(pattern, replacement) pairs, transcribed codepoint-for-codepoint. -/
def mojibakeTable : List (List Char × List Char) :=
  [("\u00c3\u0192\u00c6\u2019\u00c3\u2020\u0027\u00c3\u0192\u00e2\u20ac\u0161\u00c3\u201a\u00c2\u00b0\u00c3\u0192\u00c6\u2019\u00c3\u00a2\u00e2\u201a\u00ac\u00c2\u00a6\u00c3\u0192\u00e2\u20ac\u0161\u00c3\u201a\u00c2\u00b8\u00c3\u0192\u00c6\u2019\u00c3\u00a2\u00e2\u201a\u00ac\u00c2\u00a6\u00c3\u0192\u00e2\u20ac\u0161\u00c3\u201a\u00c2\u00a1\u00c3\u0192\u00c6\u2019\u00c3\u201a\u00c2\u00a2\u00c3\u0192\u00c2\u00a2\u00c3\u00a2\u00e2\u20ac\u0161\u00c2\u00ac\u00c3\u2026\u00c2\u00a1\u00c3\u0192\u00e2\u20ac\u0161\u00c3\u201a\u00c2\u00ac".data,
    "\u00c3\u0192\u00c6\u2019\u00c3\u201a\u00c2\u00b0\u00c3\u0192\u00e2\u20ac\u00a6\u00c3\u201a\u00c2\u00b8\u00c3\u0192\u00e2\u20ac\u00a6\u00c3\u201a\u00c2\u00a1\u00c3\u0192\u00c2\u00a2\u00c3\u00a2\u00e2\u201a\u00ac\u00c5\u00a1\u00c3\u201a\u00c2\u00ac".data),
   ("\u00c3\u0192\u00c6\u2019\u00c3\u2020\u0027\u00c3\u0192\u00e2\u20ac\u0161\u00c3\u201a\u00c2\u00b0\u00c3\u0192\u00c6\u2019\u00c3\u00a2\u00e2\u201a\u00ac\u00c2\u00a6\u00c3\u0192\u00e2\u20ac\u0161\u00c3\u201a\u00c2\u00b8\"".data,
    "\u00c3\u0192\u00c6\u2019\u00c3\u201a\u00c2\u00b0\u00c3\u0192\u00e2\u20ac\u00a6\u00c3\u201a\u00c2\u00b8\"".data),
   ("\u00c3\u0192\u00c6\u2019\u00c3\u2020\u0027\u00c3\u0192\u00e2\u20ac\u0161\u00c3\u201a\u00c2\u00b0\u00c3\u0192\u00c6\u2019\u00c3\u00a2\u00e2\u201a\u00ac\u00c2\u00a6\u00c3\u0192\u00e2\u20ac\u0161\u00c3\u201a\u00c2\u00b8\"\u0027".data,
    "\u00c3\u0192\u00c6\u2019\u00c3\u201a\u00c2\u00b0\u00c3\u0192\u00e2\u20ac\u00a6\u00c3\u201a\u00c2\u00b8\"\u00c3\u0192\u00e2\u20ac\u00a6\u00c3\u201a\u00c2\u00a1".data),
   ("\u00c3\u0192\u00c6\u2019\u00c3\u2020\u0027\u00c3\u0192\u00e2\u20ac\u0161\u00c3\u201a\u00c2\u00b0\u00c3\u0192\u00c6\u2019\u00c3\u00a2\u00e2\u201a\u00ac\u00c2\u00a6\u00c3\u0192\u00e2\u20ac\u0161\u00c3\u201a\u00c2\u00b8\u00c3\u0192\u00c6\u2019\u00c3\u00a2\u00e2\u201a\u00ac\u00c5\u00a1\u00c3\u0192\u00e2\u20ac\u0161\u00c3\u201a\u00c2\u00a7 ".data,
    "\u00c3\u0192\u00c6\u2019\u00c3\u201a\u00c2\u00b0\u00c3\u0192\u00e2\u20ac\u00a6\u00c3\u201a\u00c2\u00b8\u00c3\u0192\u00e2\u20ac\u0161\u00c3\u201a\u00c2\u00a7 ".data),
   ("\u00c3\u0192\u00c6\u2019\u00c3\u2020\u0027\u00c3\u0192\u00e2\u20ac\u0161\u00c3\u201a\u00c2\u00a2\u00c3\u0192\u00c6\u2019\u00c3\u201a\u00c2\u00a2\u00c3\u0192\u00c2\u00a2\u00c3\u00a2\u00e2\u20ac\u0161\u00c2\u00ac\u00c3\u2026\u00c2\u00a1\u00c3\u0192\u00e2\u20ac\u0161\u00c3\u201a\u00c2\u00ac\u00c3\u0192\u00c6\u2019\u00c3\u00a2\u00e2\u201a\u00ac\u00c5\u00a1\u00c3\u0192\u00e2\u20ac\u0161\u00c3\u201a\u00c2\u00a2".data,
    "\u00c3\u0192\u00c6\u2019\u00c3\u201a\u00c2\u00a2\u00c3\u0192\u00c2\u00a2\u00c3\u00a2\u00e2\u201a\u00ac\u00c5\u00a1\u00c3\u201a\u00c2\u00ac\u00c3\u0192\u00e2\u20ac\u0161\u00c3\u201a\u00c2\u00a2".data),
   ("\u00c3\u0192\u00c6\u2019\u00c3\u2020\u0027\u00c3\u0192\u00e2\u20ac\u0161\u00c3\u201a\u00c2\u00a2\u00c3\u0192\u00c6\u2019\u00c3\u201a\u00c2\u00a2\u00c3\u0192\u00c2\u00a2\u00c3\u00a2\u00e2\u20ac\u0161\u00c2\u00ac\u00c3\u2026\u00c2\u00a1\u00c3\u0192\u00e2\u20ac\u0161\u00c3\u201a\u00c2\u00ac\"".data,
    "\u00c3\u0192\u00c6\u2019\u00c3\u201a\u00c2\u00a2\u00c3\u0192\u00c2\u00a2\u00c3\u00a2\u00e2\u201a\u00ac\u00c5\u00a1\u00c3\u201a\u00c2\u00ac\"".data),
   ("\u00c3\u0192\u00c6\u2019\u00c3\u2020\u0027\u00c3\u0192\u00e2\u20ac\u0161\u00c3\u201a\u00c2\u00a2\u00c3\u0192\u00c6\u2019\u00c3\u201a\u00c2\u00a2\u00c3\u0192\u00c2\u00a2\u00c3\u00a2\u00e2\u20ac\u0161\u00c2\u00ac\u00c3\u2026\u00c2\u00a1\u00c3\u0192\u00e2\u20ac\u0161\u00c3\u201a\u00c2\u00ac\u00c3\u0192\u00c6\u2019\u00c3\u201a\u00c2\u00a2\u00c3\u0192\u00c2\u00a2\u00c3\u00a2\u00e2\u20ac\u0161\u00c2\u00ac\u00c3\u2026\u00c2\u00be\u00c3\u0192\u00e2\u20ac\u0161\u00c3\u201a\u00c2\u00a2".data,
    "\u0027".data),
   ("\u00c3\u0192\u00c6\u2019\u00c3\u2020\u0027\u00c3\u0192\u00e2\u20ac\u0161\u00c3\u201a\u00c2\u00a2\u00c3\u0192\u00c6\u2019\u00c3\u201a\u00c2\u00a2\u00c3\u0192\u00c2\u00a2\u00c3\u00a2\u00e2\u20ac\u0161\u00c2\u00ac\u00c3\u2026\u00c2\u00a1\u00c3\u0192\u00e2\u20ac\u0161\u00c3\u201a\u00c2\u00ac\u00c3\u0192\u00c6\u2019\u00c3\u00a2\u00e2\u201a\u00ac\u00c2\u00a6\"".data,
    "\"".data),
   ("\u00c3\u0192\u00c6\u2019\u00c3\u2020\u0027\u00c3\u0192\u00e2\u20ac\u0161\u00c3\u201a\u00c2\u00a2\u00c3\u0192\u00c6\u2019\u00c3\u201a\u00c2\u00a2\u00c3\u0192\u00c2\u00a2\u00c3\u00a2\u00e2\u20ac\u0161\u00c2\u00ac\u00c3\u2026\u00c2\u00a1\u00c3\u0192\u00e2\u20ac\u0161\u00c3\u201a\u00c2\u00ac".data,
    "\"".data),
   ("\u00c3\u0192\u00c6\u2019\u00c3\u2020\u0027\u00c3\u0192\u00c2\u00a2\u00c3\u00a2\u00e2\u20ac\u0161\u00c2\u00ac\u00c3\u2026\u00c2\u00a1\u00c3\u0192\u00c6\u2019\u00c3\u00a2\u00e2\u201a\u00ac\u00c5\u00a1\u00c3\u0192\u00e2\u20ac\u0161\u00c3\u201a\u00c2\u00a9".data,
    "\u00c3\u0192\u00c6\u2019\u00c3\u00a2\u00e2\u201a\u00ac\u00c5\u00a1\u00c3\u0192\u00e2\u20ac\u0161\u00c3\u201a\u00c2\u00a9".data)]

/-- The chained `.replace(...)` calls of page.tsx lines 252-262, applied
in source order. -/
def mojibakeFix (s : List Char) : List Char :=
  mojibakeTable.foldl (fun acc pr => replaceAll pr.1 pr.2 acc) s

/-- The normalization stage of `parseMarkdown`: entity decoding followed
by the ordered mojibake substring-replacement table. -/
def normalize (s : List Char) : List Char :=
  mojibakeFix (decodeHtmlEntities s)

/-! ## Block data model -/

/-- One parsed block, as pushed by `parseMarkdown` (each React element
the source pushes corresponds to one constructor; the heading counters
only affect a CSS class and are omitted).  A heading stores its content
after `**`-stripping and trimming, exactly as rendered; a table stores
the raw trimmed cells (`renderCellContent` is applied per cell at render
time); a list stores the raw joined item strings (inline formatting is
applied per item at render time); a paragraph stores the content string
after the source's inline replacements, exactly as computed before the
push. -/
inductive Block where
  | heading (level : Nat) (content : List Char)
  | code (language : List Char) (lines : List (List Char))
  | table (header : List (List Char)) (rows : List (List (List Char)))
  | list (ordered : Bool) (items : List (List Char))
  | para (content : List Char)
deriving DecidableEq

/-! ## Inline formatter (the `.replace` chains producing HTML spans) -/

def strongOpen : List Char :=
  "<strong class=\"font-semibold text-slate-900 dark:text-slate-50\">".data

def strongClose : List Char := "</strong>".data

def emOpen : List Char := "<em>".data

def emClose : List Char := "</em>".data

def codeOpen : List Char :=
  "<code class=\"bg-slate-100 dark:bg-slate-800 px-1.5 py-0.5 rounded text-sm font-mono\">".data

def codeClose : List Char := "</code>".data

/-- Lazy search for `close` after at least one `.`-matchable character:
the semantics of `(.+?)close` starting at the current position.  Returns
the (minimal, nonempty) middle and the remainder after `close`. -/
def findClose (close : List Char) : List Char → Option (List Char × List Char)
  | [] => none
  | c :: cs =>
    if isLineTerm c then none
    else if close.isPrefixOf cs then some ([c], cs.drop close.length)
    else
      match findClose close cs with
      | some (m, r) => some (c :: m, r)
      | none => none

/-- One global pass of `s.replace(/opn(.+?)cls/g, pre + matched + post)`,
with fuel (one unit per scanned position; `s.length` always suffices). -/
def replaceSpanFuel (opn cls pre post : List Char) : Nat → List Char → List Char
  | 0, s => s
  | _, [] => []
  | fuel + 1, c :: cs =>
    if opn.isPrefixOf (c :: cs) then
      match findClose cls ((c :: cs).drop opn.length) with
      | some (m, r) => pre ++ m ++ post ++ replaceSpanFuel opn cls pre post fuel r
      | none => c :: replaceSpanFuel opn cls pre post fuel cs
    else c :: replaceSpanFuel opn cls pre post fuel cs

def replaceSpan (opn cls pre post s : List Char) : List Char :=
  replaceSpanFuel opn cls pre post s.length s

/-- The two replacements applied to each table-cell part inside
`renderCellContent` (page.tsx lines 364-365): `**...**` to a styled
`<strong>` span, then `*...*` to `<em>`. -/
def formatCell (s : List Char) : List Char :=
  replaceSpan ("*".data) ("*".data) emOpen emClose
    (replaceSpan ("**".data) ("**".data) strongOpen strongClose s)

/-- The three replacements applied to each list item (page.tsx lines
445-447): `**...**`, `*...*`, then backtick code spans. -/
def formatListItem (s : List Char) : List Char :=
  replaceSpan ("`".data) ("`".data) codeOpen codeClose (formatCell s)

/-- The five replacements applied to a paragraph line (page.tsx lines
456-460): `**...**`, `*...*`, `__...__`, `_..._`, then backtick code
spans. -/
def formatParagraph (s : List Char) : List Char :=
  replaceSpan ("`".data) ("`".data) codeOpen codeClose
    (replaceSpan ("_".data) ("_".data) emOpen emClose
      (replaceSpan ("__".data) ("__".data) strongOpen strongClose
        (formatCell s)))

/-- The `<br\s*\/?>` (case-insensitive) marker test at the head of a
cell remainder; returns the remainder after the marker. -/
def matchBr : List Char → Option (List Char)
  | '<' :: b :: r :: rest =>
    if (b = 'b' ∨ b = 'B') ∧ (r = 'r' ∨ r = 'R') then
      match rest.dropWhile jsSpace with
      | '/' :: '>' :: tail => some tail
      | '>' :: tail => some tail
      | _ => none
    else none
  | _ => none

/-- `content.split(/<br\s*\/?>/i)`, with fuel (one unit per scanned
position; `s.length` suffices). -/
def splitBrFuel : Nat → List Char → List (List Char)
  | 0, s => [s]
  | _, [] => [[]]
  | fuel + 1, c :: cs =>
    match matchBr (c :: cs) with
    | some rest => [] :: splitBrFuel fuel rest
    | none =>
      match splitBrFuel fuel cs with
      | h :: t => (c :: h) :: t
      | [] => [[c]]

def splitBr (s : List Char) : List (List Char) :=
  splitBrFuel s.length s

/-- `renderCellContent` (page.tsx lines 356-371): split the cell on
`<br>` markers and apply the bold/italic replacements to each part. -/
def renderCellContent (content : List Char) : List (List Char) :=
  (splitBr content).map formatCell

/-- The cell texts of the rendered table element (page.tsx lines
373-407): each header cell is rendered as its raw stored text (line 384
interpolates the header string directly, with no inline formatting),
while each body cell goes through `renderCellContent` (line 399). -/
def renderTable (header : List (List Char)) (rows : List (List (List Char))) :
    List (List Char) × List (List (List (List Char))) :=
  (header, rows.map (fun row => row.map renderCellContent))

/-! ## Block scanner (the `while (i < lines.length)` loop) -/

/-- Blank-line test `!line.trim()`. -/
def blankLine (l : List Char) : Bool :=
  (jsTrim l).isEmpty

/-- Fence test: `line.trim()` starts with three backticks. -/
def fenceStart (l : List Char) : Bool :=
  List.isPrefixOf ("```".data) (jsTrim l)

/-- Table test `line.trim().startsWith('|')`. -/
def tableStart (l : List Char) : Bool :=
  match jsTrim l with
  | '|' :: _ => true
  | _ => false

def countLeadingHashes (l : List Char) : Nat :=
  (l.takeWhile (fun c => c == '#')).length

/-- The heading pattern `/^(#{1,6})\s+(.*)$/`: between one and six
leading `#`, at least one whitespace character, then the content (the
greedy `\s+` absorbs the whole whitespace run, and `(.*)$` forces every
remaining character to be `.`-matchable, i.e. not a line terminator).
Returns the hash count and the raw captured content. -/
def headingMatch (l : List Char) : Option (Nat × List Char) :=
  let k := countLeadingHashes l
  if 1 ≤ k ∧ k ≤ 6 then
    match l.drop k with
    | [] => none
    | c :: cs =>
      if jsSpace c then
        let content := (c :: cs).dropWhile jsSpace
        if content.all (fun x => !isLineTerm x) then some (k, content) else none
      else none
  else none

/-- The `\s+(.+)$` part shared by the two list-item patterns, applied
after the bullet/number marker: at least one whitespace character, then
a nonempty `.`-matchable content capture.  When everything after the
whitespace run is empty the engine backtracks `\s+` by one character,
so a run of two or more whitespace characters matches with the last of
them as the content. -/
def matchAfterMarker (rest : List Char) : Option (List Char) :=
  let w := rest.takeWhile jsSpace
  let tail := rest.dropWhile jsSpace
  if w.isEmpty then none
  else if !tail.isEmpty then
    if tail.all (fun x => !isLineTerm x) then some tail else none
  else if 2 ≤ w.length then
    match w.reverse with
    | c :: _ => if isLineTerm c then none else some [c]
    | [] => none
  else none

/-- The unordered item pattern `/^[\*\-]\s+(.+)$/`. -/
def ulMatch : List Char → Option (List Char)
  | [] => none
  | c :: cs => if c = '*' ∨ c = '-' then matchAfterMarker cs else none

/-- JS `\d`, i.e. an ASCII digit. -/
def isDigitChar (c : Char) : Bool :=
  48 ≤ c.toNat && c.toNat ≤ 57

/-- The ordered item pattern `/^\d+\.\s+(.+)$/`. -/
def olMatch (l : List Char) : Option (List Char) :=
  let ds := l.takeWhile isDigitChar
  if ds.isEmpty then none
  else
    match l.drop ds.length with
    | '.' :: cs => matchAfterMarker cs
    | _ => none

/-- `currentLine.match(ul) || currentLine.match(ol)`. -/
def itemMatch (l : List Char) : Option (List Char) :=
  match ulMatch l with
  | some c => some c
  | none => olMatch l

/-- `/^\s{2,}/`: the first two characters exist and are whitespace. -/
def twoLeadingWS : List Char → Bool
  | a :: b :: _ => jsSpace a && jsSpace b
  | _ => false

/-- `/^[\*\-\d]/`: the first character is `*`, `-`, or a digit. -/
def markerFirst : List Char → Bool
  | c :: _ => c == '*' || c == '-' || isDigitChar c
  | [] => false

/-- The continuation-line test of the list builder (page.tsx line 429):
`lines[i].match(/^\s{2,}/) && !lines[i].match(/^[\*\-\d]/)`. -/
def contCond (l : List Char) : Bool :=
  twoLeadingWS l && !markerFirst l

/-- `subLines.join(' ')`. -/
def joinSpace (xs : List (List Char)) : List Char :=
  List.intercalate [' '] xs

/-- The item loop of the list builder (page.tsx lines 419-435): consume
an item line, then its continuation lines (each pushed trimmed), join
them with single spaces, repeat while the next line is an item start.
Fuel: one unit per item; the call site passes the number of remaining
lines, which suffices since each item consumes at least one line. -/
def collectItems : Nat → List (List Char) → List (List Char) × List (List Char)
  | 0, ls => ([], ls)
  | _ + 1, [] => ([], [])
  | fuel + 1, l :: rest =>
    match itemMatch l with
    | none => ([], l :: rest)
    | some content =>
      let conts := (rest.takeWhile contCond).map jsTrim
      let rest2 := rest.dropWhile contCond
      let res := collectItems fuel rest2
      (joinSpace (content :: conts) :: res.1, res.2)

/-- Cell extraction for one table line (page.tsx lines 346-351): split
on `|`, trim each cell, keep a cell iff it is nonempty, not the literal
`---`, and not a nonempty run of dashes (`/^-+$/`). -/
def rowCells (r : List Char) : List (List Char) :=
  ((splitOnChar '|' r).map jsTrim).filter
    (fun c => !c.isEmpty && !(c == ("---".data)) && !(!c.isEmpty && c.all (fun x => x == '-')))

/-- One iteration of the scanner loop at a nonempty line list: the
dispatch order of page.tsx lines 273-467 (blank, fence, heading, table,
list, paragraph).  Returns the emitted block (if any) and the remaining
lines; the current line is `l` and the lines after it are `rest`. -/
def step (l : List Char) (rest : List (List Char)) : Option Block × List (List Char) :=
  if blankLine l then (none, rest)
  else if fenceStart l then
    let language := jsTrim ((jsTrim l).drop 3)
    let codeLines := rest.takeWhile (fun r => !fenceStart r)
    let rest2 := rest.dropWhile (fun r => !fenceStart r)
    (some (Block.code language codeLines), rest2.drop 1)
  else
    match headingMatch l with
    | some (k, content) =>
      (some (Block.heading k (jsTrim (replaceAll ("**".data) [] content))), rest)
    | none =>
      if tableStart l then
        let tableLines := (l :: rest).takeWhile tableStart
        let rest2 := (l :: rest).dropWhile tableStart
        let rows := (tableLines.filter (fun r => !(jsTrim r).isEmpty)).map rowCells
        match rows with
        | [] => (none, rest2)
        | h :: t => (some (Block.table h t), rest2)
      else
        match itemMatch l with
        | some _ =>
          let isOrdered := (olMatch l).isSome
          let res := collectItems (1 + rest.length) (l :: rest)
          (some (Block.list isOrdered res.1), res.2)
        | none => (some (Block.para (formatParagraph l)), rest)

/-- The scanner loop with fuel (one unit per iteration; the number of
lines suffices, since every iteration consumes at least one line). -/
def scanFuel : Nat → List (List Char) → List Block
  | 0, _ => []
  | _ + 1, [] => []
  | fuel + 1, l :: rest =>
    match step l rest with
    | (some b, rest2) => b :: scanFuel fuel rest2
    | (none, rest2) => scanFuel fuel rest2

/-- The scanner loop instrumented with the line cursor: each emitted
block is tagged with the half-open range `[start, stop)` of line indices
its iteration consumed. -/
def scanTagged : Nat → Nat → List (List Char) → List (Block × Nat × Nat)
  | 0, _, _ => []
  | _ + 1, _, [] => []
  | fuel + 1, i, l :: rest =>
    match step l rest with
    | (some b, rest2) =>
      (b, i, i + ((l :: rest).length - rest2.length)) ::
        scanTagged fuel (i + ((l :: rest).length - rest2.length)) rest2
    | (none, rest2) => scanTagged fuel (i + ((l :: rest).length - rest2.length)) rest2

/-- `parseMarkdown` (page.tsx lines 247-471): the empty / non-string
guard, normalization, the split on newlines, and the scanner loop. -/
def parseMarkdown (s : String) : List Block :=
  if s.data.isEmpty then []
  else
    let lines := splitOnChar '\n' (normalize s.data)
    scanFuel lines.length lines

/-! ## Structural lemmas about the scanner -/

theorem collectItems_suffix : ∀ (fuel : Nat) (ls : List (List Char)),
    (collectItems fuel ls).2 <:+ ls := by
  intro fuel
  induction fuel with
  | zero => intro ls; exact List.suffix_refl ls
  | succ n ih =>
    intro ls
    cases ls with
    | nil => exact List.nil_suffix
    | cons l rest =>
      unfold collectItems
      cases h : itemMatch l with
      | none => simp only [h]; exact List.suffix_refl _
      | some content =>
        simp only [h]
        exact ((ih _).trans (List.dropWhile_suffix contCond)).trans (List.suffix_cons l rest)

theorem collectItems_cons_suffix (fuel : Nat) (l : List Char)
    (rest : List (List Char)) (h : (itemMatch l).isSome = true) :
    (collectItems (fuel + 1) (l :: rest)).2 <:+ rest := by
  unfold collectItems
  cases hm : itemMatch l with
  | none => rw [hm] at h; simp at h
  | some content =>
    simp only [hm]
    exact (collectItems_suffix _ _).trans (List.dropWhile_suffix contCond)

theorem step_tail_suffix (l : List Char) (rest : List (List Char)) :
    (step l rest).2 <:+ rest := by
  unfold step
  by_cases hb : blankLine l
  · simp only [hb, if_true]; exact List.suffix_refl rest
  · simp only [hb, if_false, Bool.false_eq_true]
    by_cases hf : fenceStart l
    · simp only [hf, if_true]
      exact (List.drop_suffix 1 _).trans (List.dropWhile_suffix _)
    · simp only [hf, if_false, Bool.false_eq_true]
      cases hh : headingMatch l with
      | some kc => cases kc with
        | mk k content => simp only; exact List.suffix_refl rest
      | none =>
        simp only
        by_cases ht : tableStart l
        · simp only [ht, if_true, List.dropWhile_cons, Bool.true_eq_false]
          cases hrows : ((((l :: rest).takeWhile tableStart).filter
              (fun r => !(jsTrim r).isEmpty)).map rowCells) with
          | nil => simp only; exact List.dropWhile_suffix tableStart
          | cons r rs => simp only; exact List.dropWhile_suffix tableStart
        · simp only [ht, if_false, Bool.false_eq_true]
          cases hi : itemMatch l with
          | some content =>
            simp only
            have : (itemMatch l).isSome = true := by rw [hi]; rfl
            have h2 := collectItems_cons_suffix rest.length l rest this
            rw [Nat.add_comm 1 rest.length] at *
            exact h2
          | none => simp only; exact List.suffix_refl rest

/-- Each scanner iteration consumes at least one line: the new remaining
list is strictly shorter than `l :: rest`. -/
theorem step_advances (l : List Char) (rest : List (List Char)) :
    (step l rest).2.length < (l :: rest).length := by
  have h := (step_tail_suffix l rest).length_le
  simp only [List.length_cons]
  omega

/-- A suffix is a canonical drop. -/
theorem suffix_eq_drop {α : Type} {r ls : List α} (h : r <:+ ls) :
    r = ls.drop (ls.length - r.length) :=
  List.suffix_iff_eq_drop.mp h

theorem tableStart_trim_ne {l : List Char} (h : tableStart l = true) :
    (jsTrim l).isEmpty = false := by
  unfold tableStart at h
  cases hj : jsTrim l with
  | nil => rw [hj] at h; simp at h
  | cons c t => simp

/-- The scanner emits no block only when skipping a blank line, and then
the cursor advances exactly one line. -/
theorem step_none (l : List Char) (rest : List (List Char))
    (h : (step l rest).1 = none) :
    blankLine l = true ∧ (step l rest).2 = rest := by
  by_cases hb : blankLine l
  · refine ⟨hb, ?_⟩
    unfold step
    simp [hb]
  · exfalso
    unfold step at h
    simp only [hb, if_false, Bool.false_eq_true] at h
    by_cases hf : fenceStart l
    · simp [hf] at h
    · simp only [hf, if_false, Bool.false_eq_true] at h
      cases hh : headingMatch l with
      | some kc => rw [hh] at h; simp at h
      | none =>
        rw [hh] at h
        simp only at h
        by_cases ht : tableStart l
        · simp only [ht, if_true] at h
          cases hrows : ((((l :: rest).takeWhile tableStart).filter
              (fun r => !(jsTrim r).isEmpty)).map rowCells) with
          | nil =>
            have hne := tableStart_trim_ne ht
            rw [List.takeWhile_cons, ht] at hrows
            simp only [if_true] at hrows
            rw [List.filter_cons] at hrows
            simp only [hne] at hrows
            simp at hrows
          | cons r rs => rw [hrows] at h; simp at h
        · simp only [ht, if_false, Bool.false_eq_true] at h
          cases hi : itemMatch l with
          | some content => rw [hi] at h; simp at h
          | none => rw [hi] at h; simp at h

/-- Above the number of lines, extra fuel does not change the scan: the
loop finishes within one iteration per line. -/
theorem scanFuel_eq_of_le : ∀ (f g : Nat) (ls : List (List Char)),
    ls.length ≤ f → ls.length ≤ g → scanFuel f ls = scanFuel g ls := by
  intro f
  induction f with
  | zero =>
    intro g ls hf hg
    have : ls = [] := List.length_eq_zero.mp (Nat.le_zero.mp hf)
    subst this
    cases g <;> rfl
  | succ n ih =>
    intro g ls hf hg
    cases ls with
    | nil => cases g <;> rfl
    | cons l rest =>
      cases g with
      | zero => simp at hg
      | succ m =>
        have hsuf := (step_tail_suffix l rest).length_le
        simp only [List.length_cons] at hf hg
        show scanFuel (n + 1) (l :: rest) = scanFuel (m + 1) (l :: rest)
        unfold scanFuel
        cases hs : step l rest with
        | mk ob rest2 =>
          have hlen : rest2.length ≤ rest.length := by rw [hs] at hsuf; exact hsuf
          cases ob with
          | some b =>
            simp only
            rw [ih m rest2 (by omega) (by omega)]
          | none =>
            simp only
            rw [ih m rest2 (by omega) (by omega)]

/-- Erasing the line ranges from the instrumented scan gives the scan. -/
theorem scanTagged_fst : ∀ (fuel i : Nat) (ls : List (List Char)),
    (scanTagged fuel i ls).map (fun t => t.1) = scanFuel fuel ls := by
  intro fuel
  induction fuel with
  | zero => intro i ls; rfl
  | succ n ih =>
    intro i ls
    cases ls with
    | nil => rfl
    | cons l rest =>
      unfold scanTagged scanFuel
      cases hs : step l rest with
      | mk ob rest2 =>
        cases ob with
        | some b => simp only [List.map_cons, ih]
        | none => simp only [ih]

/-! ## Heading-level bound -/

theorem headingMatch_bound {l : List Char} {k : Nat} {c : List Char}
    (h : headingMatch l = some (k, c)) : 1 ≤ k ∧ k ≤ 6 := by
  unfold headingMatch at h
  by_cases hk : 1 ≤ countLeadingHashes l ∧ countLeadingHashes l ≤ 6
  · rw [if_pos hk] at h
    cases hd : (l.drop (countLeadingHashes l)) with
    | nil => rw [hd] at h; simp at h
    | cons a as =>
      rw [hd] at h
      simp only at h
      by_cases hs : jsSpace a
      · rw [if_pos hs] at h
        by_cases hall : ((a :: as).dropWhile jsSpace).all (fun x => !isLineTerm x)
        · rw [if_pos hall] at h
          simp only [Option.some.injEq, Prod.mk.injEq] at h
          exact h.1 ▸ hk
        · rw [if_neg hall] at h
          exact absurd h (by simp)
      · rw [if_neg hs] at h
        exact absurd h (by simp)
  · rw [if_neg hk] at h
    exact absurd h (by simp)

/-- A line with seven or more leading hash marks never matches the
heading pattern. -/
theorem headingMatch_none_of_many_hashes {l : List Char}
    (h : 7 ≤ countLeadingHashes l) : headingMatch l = none := by
  unfold headingMatch
  have : ¬(1 ≤ countLeadingHashes l ∧ countLeadingHashes l ≤ 6) := by omega
  simp [this]

theorem step_heading_bound {l : List Char} {rest : List (List Char)}
    {lvl : Nat} {content : List Char}
    (h : (step l rest).1 = some (Block.heading lvl content)) :
    1 ≤ lvl ∧ lvl ≤ 6 := by
  unfold step at h
  by_cases hb : blankLine l
  · simp [hb] at h
  · simp only [hb, if_false, Bool.false_eq_true] at h
    by_cases hf : fenceStart l
    · simp [hf] at h
    · simp only [hf, if_false, Bool.false_eq_true] at h
      cases hh : headingMatch l with
      | some kc =>
        cases kc with
        | mk k c0 =>
          rw [hh] at h
          simp only [Option.some.injEq, Block.heading.injEq] at h
          exact h.1 ▸ headingMatch_bound hh
      | none =>
        rw [hh] at h
        simp only at h
        by_cases ht : tableStart l
        · simp only [ht, if_true] at h
          cases hrows : ((((l :: rest).takeWhile tableStart).filter
              (fun r => !(jsTrim r).isEmpty)).map rowCells) with
          | nil => rw [hrows] at h; simp at h
          | cons r rs => rw [hrows] at h; simp at h
        · simp only [ht, if_false, Bool.false_eq_true] at h
          cases hi : itemMatch l with
          | some content2 => rw [hi] at h; simp at h
          | none => rw [hi] at h; simp at h

theorem scanFuel_heading_bound : ∀ (fuel : Nat) (ls : List (List Char))
    (lvl : Nat) (content : List Char),
    Block.heading lvl content ∈ scanFuel fuel ls → 1 ≤ lvl ∧ lvl ≤ 6 := by
  intro fuel
  induction fuel with
  | zero => intro ls lvl content h; simp [scanFuel] at h
  | succ n ih =>
    intro ls lvl content h
    cases ls with
    | nil => simp [scanFuel] at h
    | cons l rest =>
      unfold scanFuel at h
      cases hs : step l rest with
      | mk ob rest2 =>
        rw [hs] at h
        cases ob with
        | some b =>
          simp only [List.mem_cons] at h
          cases h with
          | inl heq =>
            have hx : (step l rest).1 = some (Block.heading lvl content) := by
              rw [hs, ← heq]
            exact step_heading_bound hx
          | inr hmem => exact ih rest2 lvl content hmem
        | none => exact ih rest2 lvl content h

/-! ## Whitespace-leading lines and the raw/trimmed pattern split -/

/-- A JS whitespace character is not a hash, bullet marker, digit, pipe
or backtick. -/
theorem jsSpace_code_facts {c : Char} (h : jsSpace c = true) :
    c.toNat ≠ 35 ∧ c.toNat ≠ 42 ∧ c.toNat ≠ 45 ∧
      ¬(48 ≤ c.toNat ∧ c.toNat ≤ 57) ∧ c.toNat ≠ 124 ∧ c.toNat ≠ 96 := by
  simp only [jsSpace, Bool.or_eq_true, beq_iff_eq, Bool.and_eq_true,
    decide_eq_true_eq] at h
  omega

theorem jsSpace_ne_hash {c : Char} (h : jsSpace c = true) : (c == '#') = false := by
  have := (jsSpace_code_facts h).1
  simp only [beq_eq_false_iff_ne, ne_eq]
  intro heq
  subst heq
  exact this rfl

theorem jsSpace_ne_star {c : Char} (h : jsSpace c = true) : c ≠ '*' := by
  have := (jsSpace_code_facts h).2.1
  intro heq; subst heq; exact this rfl

theorem jsSpace_ne_dash {c : Char} (h : jsSpace c = true) : c ≠ '-' := by
  have := (jsSpace_code_facts h).2.2.1
  intro heq; subst heq; exact this rfl

theorem jsSpace_not_digit {c : Char} (h : jsSpace c = true) :
    isDigitChar c = false := by
  have := (jsSpace_code_facts h).2.2.2.1
  simp only [isDigitChar, Bool.and_eq_false_iff]
  by_cases h1 : 48 ≤ c.toNat
  · right; simp only [decide_eq_false_iff_not]; omega
  · left; simp only [decide_eq_false_iff_not]; omega

/-- Heading recognition tests the raw line: a leading whitespace
character defeats it. -/
theorem headingMatch_none_of_ws {a : Char} {cs : List Char}
    (h : jsSpace a = true) : headingMatch (a :: cs) = none := by
  unfold headingMatch countLeadingHashes
  rw [List.takeWhile_cons, jsSpace_ne_hash h]
  simp

/-- Unordered list recognition tests the raw line: a leading whitespace
character defeats it. -/
theorem ulMatch_none_of_ws {a : Char} {cs : List Char}
    (h : jsSpace a = true) : ulMatch (a :: cs) = none := by
  have h1 := jsSpace_ne_star h
  have h2 := jsSpace_ne_dash h
  simp only [ulMatch]
  rw [if_neg]
  rintro (rfl | rfl)
  · exact h1 rfl
  · exact h2 rfl

/-- Ordered list recognition tests the raw line: a leading whitespace
character defeats it. -/
theorem olMatch_none_of_ws {a : Char} {cs : List Char}
    (h : jsSpace a = true) : olMatch (a :: cs) = none := by
  unfold olMatch
  rw [List.takeWhile_cons, jsSpace_not_digit h]
  simp

theorem itemMatch_none_of_ws {a : Char} {cs : List Char}
    (h : jsSpace a = true) : itemMatch (a :: cs) = none := by
  unfold itemMatch
  rw [ulMatch_none_of_ws h, olMatch_none_of_ws h]

theorem markerFirst_false_of_ws {a : Char} {cs : List Char}
    (h : jsSpace a = true) : markerFirst (a :: cs) = false := by
  simp only [markerFirst, Bool.or_eq_false_iff]
  refine ⟨⟨?_, ?_⟩, jsSpace_not_digit h⟩
  · simp only [beq_eq_false_iff_ne, ne_eq]; exact jsSpace_ne_star h
  · simp only [beq_eq_false_iff_ne, ne_eq]; exact jsSpace_ne_dash h

/-! ## Order preservation and coverage of the input lines -/

/-- `CoversFrom lines i tagged`: starting from line cursor `i`, the
tagged blocks consume ordered, nonempty, non-overlapping line ranges;
every line index between the cursor and the next block's start (and
after the last block) holds a blank line; and every range stays inside
the input. -/
def CoversFrom (lines : List (List Char)) : Nat → List (Block × Nat × Nat) → Prop
  | i, [] => ∀ j (hj : j < lines.length), i ≤ j → blankLine lines[j] = true
  | i, (_, s, e) :: t =>
    i ≤ s ∧
    (∀ j (hj : j < lines.length), i ≤ j → j < s → blankLine lines[j] = true) ∧
    s < e ∧ e ≤ lines.length ∧ CoversFrom lines e t

theorem coversFrom_blank_cons {lines : List (List Char)} {i : Nat}
    {T : List (Block × Nat × Nat)}
    (hb : ∀ (hi : i < lines.length), blankLine lines[i] = true)
    (h : CoversFrom lines (i + 1) T) : CoversFrom lines i T := by
  cases T with
  | nil =>
    intro j hj hij
    by_cases hji : j = i
    · subst hji; exact hb hj
    · exact h j hj (by omega)
  | cons bse t =>
    obtain ⟨b, s, e⟩ := bse
    obtain ⟨h1, h2, h3, h4, h5⟩ := h
    refine ⟨by omega, ?_, h3, h4, h5⟩
    intro j hj hij hjs
    by_cases hji : j = i
    · subst hji; exact hb hj
    · exact h2 j hj (by omega) hjs

theorem scanTagged_covers : ∀ (fuel : Nat) (i : Nat)
    (lines suffix : List (List Char)),
    lines.drop i = suffix → suffix.length ≤ fuel →
    CoversFrom lines i (scanTagged fuel i suffix) := by
  intro fuel
  induction fuel with
  | zero =>
    intro i lines suffix hdrop hlen
    have hnil : suffix = [] := List.length_eq_zero.mp (Nat.le_zero.mp hlen)
    subst hnil
    intro j hj hij
    have : lines.length ≤ i := List.drop_eq_nil_iff.mp hdrop
    omega
  | succ n ih =>
    intro i lines suffix hdrop hlen
    cases suffix with
    | nil =>
      intro j hj hij
      have : lines.length ≤ i := List.drop_eq_nil_iff.mp hdrop
      omega
    | cons l rest =>
      have hilen : lines.length - i = rest.length + 1 := by
        have := congrArg List.length hdrop
        simp only [List.length_drop, List.length_cons] at this
        omega
      have hige : i < lines.length := by omega
      have hgetl : lines[i] = l := by
        have h0 : lines[i]? = some l := by
          have := List.getElem?_drop lines i 0
          rw [hdrop] at this
          simpa using this.symm
        rw [List.getElem?_eq_getElem hige] at h0
        exact Option.some_injective _ h0
      unfold scanTagged
      cases hs : step l rest with
      | mk ob rest2 =>
        have hsuf : rest2 <:+ rest := by
          have := step_tail_suffix l rest
          rw [hs] at this
          exact this
        have hr2len : rest2.length ≤ rest.length := hsuf.length_le
        have hcanon : rest2 = (l :: rest).drop ((l :: rest).length - rest2.length) := by
          exact suffix_eq_drop (hsuf.trans (List.suffix_cons l rest))
        have hdrop2 : lines.drop (i + ((l :: rest).length - rest2.length)) = rest2 := by
          rw [← List.drop_drop, hdrop, ← hcanon]
        have hih := ih (i + ((l :: rest).length - rest2.length)) lines rest2 hdrop2
          (by simp only [List.length_cons] at *; omega)
        cases ob with
        | none =>
          obtain ⟨hblank, hrest⟩ := step_none l rest (by rw [hs])
          have hc1 : (l :: rest).length - rest2.length = 1 := by
            rw [hs] at hrest
            simp only at hrest
            subst hrest
            simp only [List.length_cons]
            omega
          simp only
          rw [hc1] at hih ⊢
          refine coversFrom_blank_cons ?_ hih
          intro hi
          rw [hgetl]
          exact hblank
        | some b =>
          simp only
          refine ⟨Nat.le_refl i, ?_, ?_, ?_, hih⟩
          · intro j hj hij hji; omega
          · simp only [List.length_cons]; omega
          · simp only [List.length_cons] at *; omega

/-! ## Dispatch lemmas -/

theorem fenceStart_not_blank {l : List Char} (hf : fenceStart l = true) :
    blankLine l = false := by
  unfold fenceStart at hf
  unfold blankLine
  cases hj : jsTrim l with
  | nil => rw [hj] at hf; simp [List.isPrefixOf] at hf
  | cons a as => simp

theorem tableStart_not_blank {l : List Char} (ht : tableStart l = true) :
    blankLine l = false := by
  unfold blankLine
  rw [tableStart_trim_ne ht]

/-- A fence line starts a code block: the builder captures the language
after the fence marker and consumes up to (and including) the next fence
line. -/
theorem step_code_of_fenceStart (l : List Char) (rest : List (List Char))
    (hf : fenceStart l = true) :
    step l rest =
      (some (Block.code (jsTrim ((jsTrim l).drop 3))
        (rest.takeWhile (fun r => !fenceStart r))),
       (rest.dropWhile (fun r => !fenceStart r)).drop 1) := by
  unfold step
  rw [fenceStart_not_blank hf]
  simp [hf]

/-- A fence with no later fence line consumes every remaining line into
the code block, ending at end of input. -/
theorem step_unterminated_fence (l : List Char) (rest : List (List Char))
    (hf : fenceStart l = true) (hall : ∀ r ∈ rest, fenceStart r = false) :
    step l rest = (some (Block.code (jsTrim ((jsTrim l).drop 3)) rest), []) := by
  rw [step_code_of_fenceStart l rest hf]
  have htake : rest.takeWhile (fun r => !fenceStart r) = rest :=
    List.takeWhile_eq_self_iff.mpr (by intro a ha; simp [hall a ha])
  have hdropw : rest.dropWhile (fun r => !fenceStart r) = [] :=
    List.dropWhile_eq_nil_iff.mpr (by intro a ha; simp [hall a ha])
  rw [htake, hdropw]
  rfl

/-- A table line (when not blank, fence or heading) starts a table. -/
theorem step_table_of_tableStart (l : List Char) (rest : List (List Char))
    (hb : blankLine l = false) (hf : fenceStart l = false)
    (hh : headingMatch l = none) (ht : tableStart l = true) :
    ∃ hd rs, step l rest =
      (some (Block.table hd rs), (l :: rest).dropWhile tableStart) := by
  unfold step
  rw [hb, hf, hh]
  simp only [Bool.false_eq_true, if_false, ht, if_true]
  cases hrows : ((((l :: rest).takeWhile tableStart).filter
      (fun r => !(jsTrim r).isEmpty)).map rowCells) with
  | nil =>
    exfalso
    have hne := tableStart_trim_ne ht
    rw [List.takeWhile_cons, ht] at hrows
    simp only [if_true] at hrows
    rw [List.filter_cons] at hrows
    simp only [hne] at hrows
    simp at hrows
  | cons r rs =>
    exact ⟨r, rs, rfl⟩

/-- A line that is not blank and matches no other pattern becomes a
single paragraph with the inline replacements applied. -/
theorem step_para (l : List Char) (rest : List (List Char))
    (hb : blankLine l = false) (hf : fenceStart l = false)
    (hh : headingMatch l = none) (ht : tableStart l = false)
    (hi : itemMatch l = none) :
    step l rest = (some (Block.para (formatParagraph l)), rest) := by
  unfold step
  rw [hb, hf, hh, hi]
  simp [ht]

/-! ## List continuation -/

/-- The spec reading of the continuation condition: at least two leading
whitespace characters and the line does not itself begin a new bullet or
numbered list item. -/
def specListContinuation (l : List Char) : Bool :=
  twoLeadingWS l && !(ulMatch l).isSome && !(olMatch l).isSome

theorem contCond_eq_spec (l : List Char) :
    contCond l = specListContinuation l := by
  unfold contCond specListContinuation
  cases l with
  | nil => rfl
  | cons a t =>
    cases t with
    | nil => rfl
    | cons b t2 =>
      by_cases hws : twoLeadingWS (a :: b :: t2) = true
      · have ha : jsSpace a = true := by
          simp only [twoLeadingWS, Bool.and_eq_true] at hws
          exact hws.1
        rw [hws, markerFirst_false_of_ws ha,
          ulMatch_none_of_ws ha, olMatch_none_of_ws ha]
        rfl
      · rw [Bool.not_eq_true] at hws
        rw [hws]
        rfl

/-! ## Claim theorems -/

/-- C1 (counterexample): normalization is not idempotent.  Entity
decoding strips one encoding layer per pass, so the doubly-encoded
ampersand entity decodes to a single entity on the first pass and to a
bare ampersand on the second. -/
theorem normalize_not_idempotent_cex :
    normalize (normalize ("&amp;amp;".data)) ≠ normalize ("&amp;amp;".data) := by
  decide

/-- C1 (amended): normalization is idempotent on already-clean input:
when a string is fixed by the entity decoder and by the mojibake table,
normalizing returns it unchanged and normalizing twice equals
normalizing once.  In general idempotence fails (see the
counterexample). -/
theorem normalize_idempotent_on_clean (s : List Char)
    (hdec : decodeHtmlEntities s = s) (hmoj : mojibakeFix s = s) :
    normalize s = s ∧ normalize (normalize s) = normalize s := by
  have h1 : normalize s = s := by unfold normalize; rw [hdec, hmoj]
  exact ⟨h1, by rw [h1, h1]⟩

theorem normalize_idempotent_on_clean_witness :
    decodeHtmlEntities ("hello world".data) = "hello world".data ∧
    mojibakeFix ("hello world".data) = "hello world".data ∧
    normalize ("hello world".data) = "hello world".data ∧
    normalize (normalize ("hello world".data)) = normalize ("hello world".data) := by
  have h := normalize_idempotent_on_clean ("hello world".data) (by decide) (by decide)
  exact ⟨by decide, by decide, h.1, h.2⟩

/-- C2: the parser is a total function by construction (it returns a
plain `List Block` for every string, with no error outcome), and the
empty string yields the empty block sequence via the falsy-input guard. -/
theorem parseMarkdown_total_empty :
    parseMarkdown "" = [] ∧ ∀ s : String, ∃ bs : List Block, parseMarkdown s = bs := by
  exact ⟨rfl, fun s => ⟨parseMarkdown s, rfl⟩⟩

/-- C3: the scanner's cursor advances by at least one line per iteration
(the remaining-line list shrinks strictly), and consequently the loop is
finished within one iteration per input line: giving the loop any fuel
at least the number of lines produces the same output as exactly the
number of lines. -/
theorem scanner_advances_and_terminates :
    (∀ (l : List Char) (rest : List (List Char)),
      (step l rest).2.length < (l :: rest).length) ∧
    (∀ (fuel : Nat) (ls : List (List Char)), ls.length ≤ fuel →
      scanFuel fuel ls = scanFuel ls.length ls) := by
  constructor
  · exact step_advances
  · intro fuel ls h
    exact scanFuel_eq_of_le fuel ls.length ls h (Nat.le_refl _)

theorem scanner_advances_and_terminates_witness :
    (step ("# a".data) []).2.length < 1 ∧
    scanFuel 7 ["# a".data, "b".data] = scanFuel 2 ["# a".data, "b".data] := by
  refine ⟨scanner_advances_and_terminates.1 ("# a".data) [], ?_⟩
  exact scanner_advances_and_terminates.2 7 ["# a".data, "b".data] (by decide)

/-- C4: every heading block the parser emits has level between 1 and 6,
and a line with seven or more leading hash marks never matches the
heading pattern. -/
theorem heading_level_bound :
    (∀ (s : String) (lvl : Nat) (content : List Char),
      Block.heading lvl content ∈ parseMarkdown s → 1 ≤ lvl ∧ lvl ≤ 6) ∧
    (∀ l : List Char, 7 ≤ countLeadingHashes l → headingMatch l = none) := by
  constructor
  · intro s lvl content h
    unfold parseMarkdown at h
    by_cases he : s.data.isEmpty
    · rw [if_pos he] at h; simp at h
    · rw [if_neg he] at h
      exact scanFuel_heading_bound _ _ _ _ h
  · intro l h
    exact headingMatch_none_of_many_hashes h

theorem heading_level_bound_witness :
    Block.heading 1 ("t".data) ∈ parseMarkdown "# t" ∧ (1 ≤ 1 ∧ 1 ≤ 6) ∧
    7 ≤ countLeadingHashes ("####### x".data) ∧
    headingMatch ("####### x".data) = none := by
  have hmem : Block.heading 1 ("t".data) ∈ parseMarkdown "# t" := by decide
  exact ⟨hmem, heading_level_bound.1 "# t" 1 ("t".data) hmem, by decide,
    heading_level_bound.2 ("####### x".data) (by decide)⟩

/-- C5: for every line list (in particular the one `parseMarkdown`
builds from any input string by normalizing and splitting on newlines),
consecutive blocks consume ordered, nonempty, non-overlapping line
ranges; the only line indices not inside a block's range hold blank
lines; and forgetting the ranges gives exactly the scanner's block
output. -/
theorem blocks_cover_lines_in_order (lines : List (List Char)) :
    CoversFrom lines 0 (scanTagged lines.length 0 lines) ∧
    (scanTagged lines.length 0 lines).map (fun t => t.1) =
      scanFuel lines.length lines := by
  constructor
  · have h := scanTagged_covers lines.length 0 lines lines
      (List.drop_zero lines) (Nat.le_refl lines.length)
    exact h
  · exact scanTagged_fst lines.length 0 lines

/-- C6 (counterexample): the unterminated-fence scenario does not yield
a code block whose content is the single line of code: the trailing
newline of the input contributes a final empty content line. -/
theorem unterminated_fence_cex :
    parseMarkdown "```go\nfunc main() {}\n" ≠
      [Block.code ("go".data) [("func main() {}").data]] := by
  decide

/-- C6 (amended): the unterminated-fence scenario yields exactly one
code block with language `go` and content lines `func main() {}` plus a
final empty line (from the trailing newline); in general a fence with no
later fence line consumes every remaining line as content, ending at end
of input without error. -/
theorem unterminated_fence_consumes_rest :
    parseMarkdown "```go\nfunc main() {}\n" =
      [Block.code ("go".data) [("func main() {}").data, []]] ∧
    ∀ (l : List Char) (rest : List (List Char)), fenceStart l = true →
      (∀ r ∈ rest, fenceStart r = false) →
      step l rest = (some (Block.code (jsTrim ((jsTrim l).drop 3)) rest), []) := by
  exact ⟨by decide, step_unterminated_fence⟩

theorem unterminated_fence_consumes_rest_witness :
    fenceStart ("```go".data) = true ∧
    (∀ r ∈ [("func main() {}").data], fenceStart r = false) ∧
    step ("```go".data) [("func main() {}").data] =
      (some (Block.code ("go".data) [("func main() {}").data]), []) := by
  refine ⟨by decide, by decide, ?_⟩
  have h := unterminated_fence_consumes_rest.2 ("```go".data) [("func main() {}").data]
    (by decide) (by decide)
  rw [h]
  decide

/-- C7 (counterexample): the table scenario does not drop the separator
row entirely: the dash-separator line survives as a row (all of whose
cells are dropped), so the body is not `[["1","2"]]`. -/
theorem table_separator_row_cex :
    parseMarkdown "| A | B |\n| --- | --- |\n| 1 | 2 |" ≠
      [Block.table ["A".data, "B".data] [["1".data, "2".data]]] := by
  decide

/-- C7 (amended): in the table scenario every cell of the separator row
is dropped (cells that are empty or a run of dashes are filtered out),
but the row itself is kept, so the table has header `["A","B"]` and body
rows `[[], ["1","2"]]` -- an empty row for the separator line followed by
the data row. -/
theorem table_separator_empty_row :
    parseMarkdown "| A | B |\n| --- | --- |\n| 1 | 2 |" =
      [Block.table ["A".data, "B".data] [[], ["1".data, "2".data]]] := by
  decide

/-- C8 (counterexample): the inline formatter is not applied to all
four claimed contexts.  (1) Headings: the heading emitted for `# *x*`
still carries its raw emphasis markers, although every one of the
source inline formatters would rewrite them.  (2) Table header cells:
parsing a table whose header cell is `**b**` stores and renders the raw
markers (`renderTable` keeps the header verbatim), although the cell
formatter would rewrite them.  (3) Code spans in cells: the cell
formatter resolves no backtick spans, although the list/paragraph
formatter does. -/
theorem heading_inline_format_cex :
    (parseMarkdown "# *x*" = [Block.heading 1 ("*x*".data)] ∧
      formatCell ("*x*".data) ≠ "*x*".data ∧
      formatListItem ("*x*".data) ≠ "*x*".data ∧
      formatParagraph ("*x*".data) ≠ "*x*".data) ∧
    (parseMarkdown "| **b** |\n| x |" =
        [Block.table [("**b**".data)] [["x".data]]] ∧
      (renderTable [("**b**".data)] [["x".data]]).1 = [("**b**".data)] ∧
      renderCellContent ("**b**".data) ≠ [("**b**".data)]) ∧
    (renderCellContent ("`c`".data) = [("`c`".data)] ∧
      formatListItem ("`c`".data) ≠ ("`c`".data) ∧
      formatParagraph ("`c`".data) ≠ ("`c`".data)) := by
  exact ⟨⟨by decide, by decide, by decide, by decide⟩,
    ⟨by decide, by decide, by decide⟩,
    ⟨by decide, by decide, by decide⟩⟩

/-- C8 (amended): the inline formatter is applied to paragraphs, list
items and table body cells, where each `<br>`-separated cell part gets
the bold and italic replacements only (no code-span resolution); a
heading content only has its `**` markers stripped and is emitted
without inline formatting; and table header cells are rendered raw,
without inline formatting. -/
theorem inline_format_contexts :
    parseMarkdown "**b** x" = [Block.para (formatParagraph ("**b** x".data))] ∧
    formatParagraph ("**b** x".data) =
      strongOpen ++ "b".data ++ strongClose ++ " x".data ∧
    parseMarkdown "- *i* x" = [Block.list false [("*i* x").data]] ∧
    formatListItem (("*i* x").data) = emOpen ++ "i".data ++ emClose ++ " x".data ∧
    renderCellContent ("**b**<br>i".data) =
      [strongOpen ++ "b".data ++ strongClose, "i".data] ∧
    renderTable [("**h**".data)] [[("*i* `c`".data)]] =
      ([("**h**".data)],
       [[[emOpen ++ "i".data ++ emClose ++ (" `c`").data]]]) ∧
    parseMarkdown "# **b** *i*" = [Block.heading 1 ("b *i*".data)] := by
  exact ⟨by decide, by decide, by decide, by decide, by decide, by decide, by decide⟩

/-- C9: the continuation test the list builder uses is exactly the
spec's condition -- at least two leading whitespace characters and not
itself the start of a bullet or numbered item (a line with two leading
whitespace characters can never start an item, so both reduce to the
indentation test) -- and the scenario input folds its continuation line
into the first item joined by a single space. -/
theorem list_continuation_fold :
    (∀ l : List Char, contCond l = specListContinuation l) ∧
    parseMarkdown "- item one\n  continued\n- item two" =
      [Block.list false [("item one continued").data, ("item two").data]] := by
  exact ⟨contCond_eq_spec, by decide⟩

/-- C10: heading and list-item recognition test the raw line, so any
line with a leading whitespace character matches none of them, while
fence and table recognition test the trimmed line, so such a line still
opens a code block or table; when its trimmed form is nonempty and opens
neither, it becomes a paragraph. -/
theorem raw_vs_trimmed_dispatch (a : Char) (cs : List Char)
    (rest : List (List Char)) (hws : jsSpace a = true) :
    headingMatch (a :: cs) = none ∧ ulMatch (a :: cs) = none ∧
    olMatch (a :: cs) = none ∧
    (fenceStart (a :: cs) = true →
      step (a :: cs) rest =
        (some (Block.code (jsTrim ((jsTrim (a :: cs)).drop 3))
          (rest.takeWhile (fun r => !fenceStart r))),
         (rest.dropWhile (fun r => !fenceStart r)).drop 1)) ∧
    (fenceStart (a :: cs) = false → tableStart (a :: cs) = true →
      ∃ hd rs, step (a :: cs) rest =
        (some (Block.table hd rs), ((a :: cs) :: rest).dropWhile tableStart)) ∧
    (blankLine (a :: cs) = false → fenceStart (a :: cs) = false →
      tableStart (a :: cs) = false →
      step (a :: cs) rest = (some (Block.para (formatParagraph (a :: cs))), rest)) := by
  refine ⟨headingMatch_none_of_ws hws, ulMatch_none_of_ws hws,
    olMatch_none_of_ws hws, ?_, ?_, ?_⟩
  · intro hf
    exact step_code_of_fenceStart _ _ hf
  · intro hf ht
    exact step_table_of_tableStart _ _ (tableStart_not_blank ht) hf
      (headingMatch_none_of_ws hws) ht
  · intro hb hf ht
    exact step_para _ _ hb hf (headingMatch_none_of_ws hws) ht
      (itemMatch_none_of_ws hws)

theorem raw_vs_trimmed_dispatch_witness :
    (headingMatch (' ' :: "# x".data) = none ∧
      ulMatch (' ' :: "- x".data) = none ∧ olMatch (' ' :: "1. x".data) = none) ∧
    step (' ' :: "```go".data) [] = (some (Block.code ("go".data) []), []) ∧
    (∃ hd rs, step (' ' :: "| a |".data) [] =
      (some (Block.table hd rs),
        ((' ' :: "| a |".data) :: []).dropWhile tableStart)) ∧
    step (' ' :: "x".data) [] =
      (some (Block.para (formatParagraph (' ' :: "x".data))), []) := by
  have h1 := raw_vs_trimmed_dispatch ' ' ("# x".data) [] (by decide)
  have h2 := raw_vs_trimmed_dispatch ' ' ("- x".data) [] (by decide)
  have h3 := raw_vs_trimmed_dispatch ' ' ("1. x".data) [] (by decide)
  have h4 := raw_vs_trimmed_dispatch ' ' ("```go".data) [] (by decide)
  have h5 := raw_vs_trimmed_dispatch ' ' ("| a |".data) [] (by decide)
  have h6 := raw_vs_trimmed_dispatch ' ' ("x".data) [] (by decide)
  refine ⟨⟨h1.1, h2.2.1, h3.2.2.1⟩, ?_,
    h5.2.2.2.2.1 (by decide) (by decide),
    h6.2.2.2.2.2 (by decide) (by decide) (by decide)⟩
  have := h4.2.2.2.1 (by decide)
  rw [this]
  decide

end GistApp
